import Mathlib

/-!
Verification development for `random_file_opener.py`.

Each Python component used by the frozen claims is given a shallow
embedding: pure functions become Lean functions, stateful methods become
explicit state-passing functions, machine-level details that no claim
depends on (thread locks, log output, performance counters, the concrete
SHA-256 digest, OS error message texts) are abstracted as noted in the
doc comment of each definition.
-/

namespace FileOpener

/-! ### SimpleLRUCache (random_file_opener.py lines 185-254)

The Python class wraps an `OrderedDict`; we model it as a list of
key/value pairs ordered from least-recently-used (front) to
most-recently-used (back), together with the hit/miss counters.
Locks are dropped (single-threaded model). -/

structure LRUState (K V : Type) where
  maxSize : Nat
  entries : List (K × V)
  hits : Nat
  misses : Nat
deriving DecidableEq

/-- First-match association lookup, the model of `key in self._cache` /
`self._cache[key]` (an `OrderedDict` holds each key at most once). -/
def lookupKey {K V : Type} [DecidableEq K] (k : K) : List (K × V) → Option V
  | [] => none
  | (k', v) :: rest => if k' = k then some v else lookupKey k rest

/-- Removal of a key, the model of taking the entry out of the
`OrderedDict` (`move_to_end` = remove + append; `del` = remove). -/
def eraseKey {K V : Type} [DecidableEq K] (k : K) (es : List (K × V)) : List (K × V) :=
  es.filter (fun p => !(decide (p.1 = k)))

/-- `SimpleLRUCache.__init__` with a positive size (the constructor raises
`ValueError` on `max_size <= 0`; theorems carry `0 < maxSize`). -/
def lruInit (K V : Type) (maxSize : Nat) : LRUState K V :=
  { maxSize := maxSize, entries := [], hits := 0, misses := 0 }

/-- `SimpleLRUCache.get`: on a hit, `move_to_end` the key, bump the hit
counter and return the value; on a miss bump the miss counter. -/
def lruGet {K V : Type} [DecidableEq K] (st : LRUState K V) (k : K) :
    Option V × LRUState K V :=
  match lookupKey k st.entries with
  | some v =>
      (some v, { st with entries := eraseKey k st.entries ++ [(k, v)], hits := st.hits + 1 })
  | none => (none, { st with misses := st.misses + 1 })

/-- `SimpleLRUCache.put`: refresh recency of an existing key and overwrite
its value; otherwise evict the front (least-recently-used) entry when at
capacity (`popitem(last=False)`) and append the new pair at the back. -/
def lruPut {K V : Type} [DecidableEq K] (st : LRUState K V) (k : K) (v : V) :
    LRUState K V :=
  match lookupKey k st.entries with
  | some _ => { st with entries := eraseKey k st.entries ++ [(k, v)] }
  | none =>
      if st.entries.length ≥ st.maxSize then
        { st with entries := st.entries.drop 1 ++ [(k, v)] }
      else
        { st with entries := st.entries ++ [(k, v)] }

/-- `SimpleLRUCache.clear`: drop the contents and zero both counters. -/
def lruClear {K V : Type} (st : LRUState K V) : LRUState K V :=
  { st with entries := [], hits := 0, misses := 0 }

/-! Instrumented runs of the cache, used to state the LRU-eviction claim:
alongside the cache state we track, for every key, the index of the last
operation that used it (a `get` hit or any `put`), so that
"least-recently-used" can be stated independently of the list order. -/

inductive CacheOp (K V : Type) where
  | get (k : K)
  | put (k : K) (v : V)

structure TrackedCache (K V : Type) where
  st : LRUState K V
  time : Nat
  lastUse : K → Nat

/-- Pointwise function update for the recency bookkeeping. -/
def updateFn {K : Type} [DecidableEq K] (f : K → Nat) (k : K) (n : Nat) : K → Nat :=
  fun x => if x = k then n else f x

/-- One `get`/`put` call on the instrumented cache. A `get` hit and every
`put` stamp the touched key with the current time. -/
def trackedStep {K V : Type} [DecidableEq K] (c : TrackedCache K V) (op : CacheOp K V) :
    TrackedCache K V :=
  match op with
  | .get k =>
      { st := (lruGet c.st k).2,
        time := c.time + 1,
        lastUse := if (lookupKey k c.st.entries).isSome then updateFn c.lastUse k c.time
                   else c.lastUse }
  | .put k v =>
      { st := lruPut c.st k v,
        time := c.time + 1,
        lastUse := updateFn c.lastUse k c.time }

/-- A whole call sequence against a freshly constructed cache. -/
def trackedRun {K V : Type} [DecidableEq K] (maxSize : Nat) (ops : List (CacheOp K V)) :
    TrackedCache K V :=
  ops.foldl trackedStep { st := lruInit K V maxSize, time := 0, lastUse := fun _ => 0 }

/-- Invariant tying the list order to recency: entries are sorted by
strictly increasing last-use time, and every resident key was used before
the current time. -/
def CacheInv {K V : Type} (c : TrackedCache K V) : Prop :=
  c.st.entries.Pairwise (fun p q => c.lastUse p.1 < c.lastUse q.1) ∧
  (∀ p ∈ c.st.entries, c.lastUse p.1 < c.time)

/-! ### Configuration (random_file_opener.py lines 44-146)

Only the fields the claims touch are kept.  `system_executable_extensions`
is stored lowercased by `Config.__post_init__`. -/

structure Config where
  excludePatterns : List String
  systemExecutableExtensions : List String
  excludeSymlinks : Bool
  cacheTtl : Int
  maxFileSizeForFullHash : Nat
deriving DecidableEq

/-! ### Exclusion engine (random_file_opener.py lines 608-652) -/

/-- The reason strings returned by `should_exclude`, as abstract tags
(the source returns Chinese text; the spec translates them, e.g.
`.patternMatch` renders the source's string for "pattern match"). -/
inductive ExcludeReason where
  | emptyName
  | hiddenFile
  | patternMatch
  | systemExecutable
  | notExists
  | notAFile
  | notReadable
  | symlinkFile
  | accessError
deriving DecidableEq

/-- Model of one `os.scandir` entry together with the answers the live
filesystem gives to `should_exclude`'s checks.  `accessError` models an
exception raised by any of those probes (path.exists / is_file /
os.access / is_symlink); `entryStatFails` models an `OSError` from the
scandir entry itself (`entry.is_file()` / `.name` / `.path`). -/
structure Entry where
  name : String
  entryIsFile : Bool
  entryStatFails : Bool
  pathExists : Bool
  pathIsFile : Bool
  readable : Bool
  isSymlink : Bool
  accessError : Bool
deriving DecidableEq

/-- Does `needle` occur at the head of `hay`?  (Helper for Python's
substring operator `in` and for prefix/suffix tests.) -/
def leadsWith {α : Type} [DecidableEq α] : List α → List α → Bool
  | [], _ => true
  | _ :: _, [] => false
  | a :: as, b :: bs => decide (a = b) && leadsWith as bs

/-- Does `needle` occur contiguously anywhere in `hay`? -/
def containsSeq {α : Type} [DecidableEq α] : List α → List α → Bool
  | [], needle => needle.isEmpty
  | a :: rest, needle => leadsWith needle (a :: rest) || containsSeq rest needle

/-- Python's `pattern in filename` substring test. -/
def strContains (hay pat : String) : Bool :=
  containsSeq hay.data pat.data

/-- Python's `s.startswith(pre)`. -/
def strStartsWith (s pre : String) : Bool :=
  leadsWith pre.data s.data

/-- Python's `s.endswith(suf)`. -/
def strEndsWith (s suf : String) : Bool :=
  leadsWith suf.data.reverse s.data.reverse

/-- Python's `s.lower()`; the program's filenames and patterns make only
ASCII case distinctions, where `Char.toLower` agrees with `str.lower`. -/
def strToLower (s : String) : String :=
  String.mk (s.data.map Char.toLower)

/-- Python's `s[n:]`. -/
def strDrop (s : String) (n : Nat) : String :=
  String.mk (s.data.drop n)

/-- Core of the stdlib `fnmatch` translation: `*` matches any run of
characters, `?` matches one character, anything else is literal.
(Bracket character classes are not modelled; no claim and no configured
pattern uses them.)  The fuel argument only drives structural recursion:
each step consumes a pattern or subject character, so
`p.length + s.length + 1` fuel always suffices. -/
def globMatchFuel : Nat → List Char → List Char → Bool
  | 0, _, _ => false
  | _ + 1, [], [] => true
  | fuel + 1, '*' :: ps, [] => globMatchFuel fuel ps []
  | _ + 1, _ :: _, [] => false
  | _ + 1, [], _ :: _ => false
  | fuel + 1, '*' :: ps, c :: cs =>
      globMatchFuel fuel ps (c :: cs) || globMatchFuel fuel ('*' :: ps) cs
  | fuel + 1, '?' :: ps, _ :: cs => globMatchFuel fuel ps cs
  | fuel + 1, p :: ps, c :: cs => decide (p = c) && globMatchFuel fuel ps cs

def globMatch (p s : List Char) : Bool :=
  globMatchFuel (p.length + s.length + 1) p s

/-- `fnmatch.fnmatch(name, pat)`: the program runs on Windows (it imports
`winreg` unconditionally), where `fnmatch` applies `os.path.normcase`,
i.e. lowercases both sides before matching. -/
def fnmatchMatch (name pat : String) : Bool :=
  globMatch (strToLower pat).data (strToLower name).data

/-- The pattern loop of `should_exclude` (lines 620-632): per pattern,
skip empty patterns; a pattern starting with `*.` is a case-insensitive
suffix test on `pattern[1:]`; otherwise substring containment is tried
first, and if that fails and the pattern holds a `*` or `?` wildcard,
`fnmatch` is tried. -/
def patternMatches (patterns : List String) (filename : String) : Bool :=
  patterns.any (fun pattern =>
    if pattern = "" then false
    else if strStartsWith pattern "*." then
      strEndsWith (strToLower filename) (strToLower (strDrop pattern 1))
    else if strContains filename pattern then true
    else if pattern.data.contains '*' || pattern.data.contains '?' then
      fnmatchMatch filename pattern
    else false)

/-- The pattern loop as the SPEC states it (spec.md section 4.4, claim C4):
"if pattern begins with `*.`, compare the remainder case-insensitively
against the filename's suffix; else if pattern contains no wildcard,
treat as substring containment; else apply general glob matching."
Written from the spec's words, for comparison with `patternMatches`. -/
def patternMatchesSpec (patterns : List String) (filename : String) : Bool :=
  patterns.any (fun pattern =>
    if pattern = "" then false
    else if strStartsWith pattern "*." then
      strEndsWith (strToLower filename) (strToLower (strDrop pattern 1))
    else if !(pattern.data.contains '*' || pattern.data.contains '?') then
      strContains filename pattern
    else
      fnmatchMatch filename pattern)

/-- `should_exclude` (lines 608-652): empty name, hidden-name prefix,
configured patterns, system/executable extensions, then the live
filesystem checks in source order, fail-closed on access errors. -/
def shouldExclude (cfg : Config) (e : Entry) : Bool × Option ExcludeReason :=
  if e.name = "" then (true, some .emptyName)
  else if strStartsWith e.name "." || strStartsWith e.name "~" then (true, some .hiddenFile)
  else if patternMatches cfg.excludePatterns e.name then (true, some .patternMatch)
  else if cfg.systemExecutableExtensions.any (fun ext => strEndsWith (strToLower e.name) ext) then
    (true, some .systemExecutable)
  else if e.accessError then (true, some .accessError)
  else if !e.pathExists then (true, some .notExists)
  else if !e.pathIsFile then (true, some .notAFile)
  else if !e.readable then (true, some .notReadable)
  else if cfg.excludeSymlinks && e.isSymlink then (true, some .symlinkFile)
  else (false, none)

/-- `should_exclude` with its pattern stage replaced by the spec's
version — the reading claim C4 asserts of the code. -/
def shouldExcludeSpec (cfg : Config) (e : Entry) : Bool × Option ExcludeReason :=
  if e.name = "" then (true, some .emptyName)
  else if strStartsWith e.name "." || strStartsWith e.name "~" then (true, some .hiddenFile)
  else if patternMatchesSpec cfg.excludePatterns e.name then (true, some .patternMatch)
  else if cfg.systemExecutableExtensions.any (fun ext => strEndsWith (strToLower e.name) ext) then
    (true, some .systemExecutable)
  else if e.accessError then (true, some .accessError)
  else if !e.pathExists then (true, some .notExists)
  else if !e.pathIsFile then (true, some .notAFile)
  else if !e.readable then (true, some .notReadable)
  else if cfg.excludeSymlinks && e.isSymlink then (true, some .symlinkFile)
  else (false, none)

/-! ### Directory scanner (random_file_opener.py lines 654-704)

The qualified-set cache is the pair of fields `_qualified_files_cache`
and `_cache_timestamp`; times are modelled as integers (Python uses
`time.time()` floats — no claim depends on sub-second values).  The
scan/exclusion statistics counters are not modelled (no claim reads
them), and the Chinese error-message texts are abbreviated to English
stand-ins (no claim inspects message contents, only `none` vs `some`). -/

structure ScanState where
  cache : Option (List String)
  timestamp : Int
deriving DecidableEq

/-- The directory as `scan_qualified_files` probes it: the `os.access`
readability check, the existence check, and the `os.scandir` listing
(`none` models an exception escaping the listing loop). -/
structure DirFs where
  dirReadable : Bool
  dirExists : Bool
  listing : Option (List Entry)

/-- The cache-miss path of `scan_qualified_files` (lines 664-704):
list the directory, keep the names that pass `should_exclude` in
enumeration order, and replace the cache with the new set and a fresh
timestamp; report failure, with the state untouched, when the directory
is unreadable, missing, or the listing raises. -/
def scanDirectory (cfg : Config) (fs : DirFs) (st : ScanState) (now : Int) :
    (List String × Bool × Option String) × ScanState :=
  if !fs.dirReadable then (([], false, some "directory not accessible"), st)
  else if !fs.dirExists then (([], false, some "directory does not exist"), st)
  else
    match fs.listing with
    | none => (([], false, some "error while scanning files"), st)
    | some entries =>
        let qualified := entries.foldl
          (fun acc e =>
            if e.entryStatFails then acc
            else if !e.entryIsFile then acc
            else if (shouldExclude cfg e).1 then acc
            else acc ++ [e.name]) []
        ((qualified, true, none), { cache := some qualified, timestamp := now })

/-- `scan_qualified_files` (lines 654-704): serve the cached qualified
set when one exists, no refresh is forced, and its age is strictly below
`cache_ttl`; otherwise rescan. -/
def scanQualifiedFiles (cfg : Config) (fs : DirFs) (st : ScanState) (now : Int)
    (forceRefresh : Bool) : (List String × Bool × Option String) × ScanState :=
  if !forceRefresh && st.cache.isSome && decide (now - st.timestamp < cfg.cacheTtl) then
    ((st.cache.getD [], true, none), st)
  else scanDirectory cfg fs st now

/-! ### History record (random_file_opener.py lines 706-751)

The in-memory record produced by `load_history` always carries the full
structure below (the loader repairs missing keys), so the typed view is
faithful for every record the claims C1-C3 and the reset path touch.
Counter values stay `Int` and timestamps stay `Option String`
(ISO strings), exactly the JSON payloads the source stores. -/

structure Statistics where
  totalOpened : Int
  totalFailed : Int
  lastReset : Option String
  resetCount : Int
  lastOpened : Option String
  lastOpenedFile : Option String
  cleanedOpened : Int
  cleanedFailed : Int
  totalResets : Int
deriving DecidableEq

structure History where
  openedFiles : List String
  failedFiles : List String
  fileSignatures : List (String × String)
  statistics : Statistics
deriving DecidableEq

/-! ### Selection engine pieces -/

/-- `get_available_files` (lines 788-809) with the history record the
enclosed `load_history()` call returned and the triple the enclosed
`scan_qualified_files()` call returned passed in explicitly: on scan
failure give up; otherwise keep, in scan order, the qualified names that
sit in neither history set. -/
def getAvailableFiles (history : History)
    (scanRes : List String × Bool × Option String) :
    List String × History × Bool × Option String :=
  let openedFiles := history.openedFiles
  let failedFiles := history.failedFiles
  if !scanRes.2.1 then ([], history, false, scanRes.2.2)
  else
    let available := scanRes.1.foldl
      (fun acc filename =>
        if decide (filename ∈ openedFiles) || decide (filename ∈ failedFiles) then acc
        else acc ++ [filename]) []
    (available, history, true, none)

/-- The record-outcome step of `run` (lines 1009-1028): on success append
the selected name to `opened_files` (unless present) and `list.remove` it
from `failed_files` (if present); on failure, symmetrically. `List.erase`
removes the first occurrence, exactly like Python's `list.remove`. -/
def recordOutcome (history : History) (selectedFile : String) (success : Bool) : History :=
  if success then
    let opened := if selectedFile ∈ history.openedFiles then history.openedFiles
                  else history.openedFiles ++ [selectedFile]
    let failed := if selectedFile ∈ history.failedFiles then
                    history.failedFiles.erase selectedFile
                  else history.failedFiles
    { history with openedFiles := opened, failedFiles := failed }
  else
    let failed := if selectedFile ∈ history.failedFiles then history.failedFiles
                  else history.failedFiles ++ [selectedFile]
    let opened := if selectedFile ∈ history.openedFiles then
                    history.openedFiles.erase selectedFile
                  else history.openedFiles
    { history with openedFiles := opened, failedFiles := failed }

/-! ### Opener state and reset (random_file_opener.py lines 883-923) -/

/-- The mutable fields of `RandomFileOpener` that `reset_history_if_needed`
touches: the qualified-set cache, the five LRU caches, and the durable
history file.  `save_history`'s temp-file/atomic-rename machinery is
modelled as directly replacing the durable record (its crash behaviour is
outside the claims); the four caches besides the hash cache are only ever
constructed and cleared by the source, so their value types are chosen
freely. -/
structure OpenerState where
  scan : ScanState
  fileHashCache : LRUState String String
  excludePatternsCache : LRUState String Bool
  encodingCache : LRUState String String
  fileAccessCache : LRUState String Bool
  fileTypeCache : LRUState String String
  savedHistory : Option History

/-- `save_history` (lines 753-786), reduced to its effect on the durable
record on the no-error path. -/
def saveHistoryTo (st : OpenerState) (h : History) : OpenerState :=
  { st with savedHistory := some h }

/-- `reset_history_if_needed` (lines 883-923): when no file is available,
force-refresh the scan; on a successful, non-empty refresh, clear the
name sets and signatures, bump `reset_count`/`total_resets`, stamp
`last_reset` with the current ISO time, persist the cleared record, drop
the qualified-set cache and clear all five LRU caches, and hand back the
full qualified set; in every other case hand back the inputs. -/
def resetHistoryIfNeeded (cfg : Config) (fs : DirFs) (now : Int) (nowIso : String)
    (st : OpenerState) (history : History) (availableFiles : List String) :
    List String × History × OpenerState :=
  if availableFiles.isEmpty then
    let scanRes := scanQualifiedFiles cfg fs st.scan now true
    let st1 := { st with scan := scanRes.2 }
    let allQualified := scanRes.1.1
    if !scanRes.1.2.1 then (availableFiles, history, st1)
    else if !allQualified.isEmpty then
      let stats := history.statistics
      let stats' := { stats with resetCount := stats.resetCount + 1,
                                 lastReset := some nowIso,
                                 totalResets := stats.totalResets + 1 }
      let newHistory : History :=
        { openedFiles := [], failedFiles := [], fileSignatures := [], statistics := stats' }
      let st2 := saveHistoryTo st1 newHistory
      let st3 := { st2 with
                    scan := { st2.scan with cache := none },
                    fileHashCache := lruClear st2.fileHashCache,
                    excludePatternsCache := lruClear st2.excludePatternsCache,
                    encodingCache := lruClear st2.encodingCache,
                    fileAccessCache := lruClear st2.fileAccessCache,
                    fileTypeCache := lruClear st2.fileTypeCache }
      (allQualified, newHistory, st3)
    else (availableFiles, history, st1)
  else (availableFiles, history, st)

/-! ### Content fingerprinter (random_file_opener.py lines 527-606)

A file is its stat data (`st_size`, `st_mtime`) plus its byte content;
`readFails` models an I/O error raised while reading it (open/read/seek).
The SHA-256 digest is abstracted as an explicit function argument
`sha : List Nat → String` — every claim about `get_file_hash` is
insensitive to the digest beyond it being a function of the bytes fed to
it.  Feeding the full content in 8192-byte chunks equals feeding it
whole, so the chunk loop is not reproduced.  Python computes the interior
sample offsets with float arithmetic (`int((i / (n-1)) * size)`); the
model uses exact integer division — no claim depends on the offsets,
only on their being a deterministic function of the size. -/

structure FileInfo where
  size : Nat
  mtime : Nat
  content : List Nat
  readFails : Bool
deriving DecidableEq

/-- The bytes `_get_sampling_hash` (lines 572-606) feeds to the digest:
the first 64KiB, then `min(8, max(3, size // 5MiB))` samples of 16KiB
each read from 8KiB before the computed offsets, then the last 64KiB
when the file exceeds 64KiB.  `f.read` past end-of-file yields nothing,
which `drop`/`take` reproduce. -/
def samplingData (size : Nat) (content : List Nat) : List Nat :=
  let startData := content.take 65536
  let sampleCount := min 8 (max 3 (size / (5 * 1024 * 1024)))
  let samples := (List.range sampleCount).foldl
    (fun acc i =>
      let pos := if sampleCount > 1 then (i * size) / (sampleCount - 1) else size / 2
      acc ++ ((content.drop (pos - 8192)).take 16384)) []
  let endData := if size > 65536 then (content.drop (size - 65536)).take 65536 else []
  startData ++ samples ++ endData

/-- `_get_sampling_hash`: digest the sampled bytes; any I/O error is
caught inside and turned into the empty string. -/
def getSamplingHash (sha : List Nat → String) (fi : FileInfo) : String :=
  if fi.readFails then "" else sha (samplingData fi.size fi.content)

/-- The body of `get_file_hash` after a cache miss (or after finding a
falsy cached value): full digest for files within
`max_file_size_for_full_hash`, sampling digest beyond it.  A read error
on the full-digest path propagates to the outer handler, which returns
the empty string WITHOUT caching; a sampling failure yields the empty
string, which IS cached (line 565 stores whatever `_get_sampling_hash`
returned). -/
def computeAndCacheHash (cfg : Config) (sha : List Nat → String) (fi : FileInfo)
    (cacheKey : String) (cache : LRUState String String) :
    String × LRUState String String :=
  if fi.size ≤ cfg.maxFileSizeForFullHash then
    if fi.readFails then ("", cache)
    else
      let h := sha fi.content
      (h, lruPut cache cacheKey h)
  else
    let h := getSamplingHash sha fi
    (h, lruPut cache cacheKey h)

/-- The cache key `f"{path}_{size}_{mtime}"` of line 540 (Python prints
`st_mtime` as a float; only the key's injectivity in the mtime matters
to the claims). -/
def hashCacheKey (path : String) (fi : FileInfo) : String :=
  path ++ "_" ++ toString fi.size ++ "_" ++ toString fi.mtime

/-- `get_file_hash` (lines 527-570): missing path gives the empty string;
a cached value is served only when truthy (Python `if cached_result:`,
so a cached empty string is skipped and recomputed); otherwise compute
and cache. -/
def getFileHash (cfg : Config) (sha : List Nat → String)
    (fs : String → Option FileInfo) (cache : LRUState String String)
    (path : String) : String × LRUState String String :=
  match fs path with
  | none => ("", cache)
  | some fi =>
      let cacheKey := hashCacheKey path fi
      let got := lruGet cache cacheKey
      match got.1 with
      | some cached =>
          if cached ≠ "" then (cached, got.2)
          else computeAndCacheHash cfg sha fi cacheKey got.2
      | none => computeAndCacheHash cfg sha fi cacheKey got.2

/-! ### History store, durable level (random_file_opener.py lines 706-786)

For the save/load round trip the record must be seen as the JSON document
the source reads and writes, because `load_history` repairs missing keys
on the raw parsed object.  `json.dump` followed by `json.load` is the
identity on the documents involved (string keys, strings, integers,
null, arrays, objects), so the durable file is modelled as holding the
JSON value itself. -/

inductive Json where
  | null
  | bool (b : Bool)
  | num (n : Int)
  | str (s : String)
  | arr (elems : List Json)
  | obj (fields : List (String × Json))

/-- Python `key in dict`. -/
def dictHasKey (kvs : List (String × Json)) (k : String) : Bool :=
  (lookupKey k kvs).isSome

/-- Python `dict[key] = value`: overwrite in place, or append a new key
(a parsed JSON object holds each key once). -/
def dictSet : List (String × Json) → String → Json → List (String × Json)
  | [], k, v => [(k, v)]
  | (k', v') :: rest, k, v =>
      if k' = k then (k, v) :: rest else (k', v') :: dictSet rest k v

/-- The `default_history["statistics"]` literal of lines 712-722. -/
def defaultStatisticsJson : List (String × Json) :=
  [("total_opened", .num 0), ("total_failed", .num 0), ("last_reset", .null),
   ("reset_count", .num 0), ("last_opened", .null), ("last_opened_file", .null),
   ("cleaned_opened", .num 0), ("cleaned_failed", .num 0), ("total_resets", .num 0)]

/-- The `default_history` literal of lines 708-723. -/
def defaultHistoryJson : Json :=
  .obj [("opened_files", .arr []), ("failed_files", .arr []),
        ("file_signatures", .obj []), ("statistics", .obj defaultStatisticsJson)]

/-- Default value substituted for a missing top-level key (line 738). -/
def defaultTopValue (key : String) : Json :=
  if key = "opened_files" then .arr []
  else if key = "failed_files" then .arr []
  else if key = "file_signatures" then .obj []
  else .obj defaultStatisticsJson

/-- The keys checked by the two repair loops (lines 736 and 741). -/
def requiredTopKeys : List String :=
  ["opened_files", "failed_files", "file_signatures", "statistics"]

def requiredStatsKeys : List String :=
  ["total_opened", "total_failed", "last_reset", "reset_count", "last_opened",
   "last_opened_file", "cleaned_opened", "cleaned_failed", "total_resets"]

/-- The repair section of `load_history` (lines 731-745): a non-dict
document is discarded for the default; missing top-level keys and missing
statistics keys are filled with their defaults.  When `"statistics"` maps
to a non-object the source's `loaded["statistics"][key] = ...` raises,
the handler catches it, and the default record is returned. -/
def repairHistoryJson (j : Json) : Json :=
  match j with
  | .obj kvs =>
      let kvs1 := requiredTopKeys.foldl
        (fun acc key => if dictHasKey acc key then acc else acc ++ [(key, defaultTopValue key)])
        kvs
      match lookupKey "statistics" kvs1 with
      | some (.obj skvs) =>
          let skvs1 := requiredStatsKeys.foldl
            (fun acc key =>
              if dictHasKey acc key then acc else acc ++ [(key, (lookupKey key defaultStatisticsJson).getD .null)])
            skvs
          .obj (dictSet kvs1 "statistics" (.obj skvs1))
      | _ => defaultHistoryJson
  | _ => defaultHistoryJson

/-- `load_history` (lines 706-751) over the durable file's contents:
`none` covers both a missing file and a parse/read failure (the handler
returns the default in each case). -/
def loadHistoryJson (file : Option Json) : Json :=
  match file with
  | none => defaultHistoryJson
  | some j => repairHistoryJson j

/-- `save_history` (lines 753-786) on its no-error path: the temporary
file is atomically renamed over the durable path, so afterwards the file
holds exactly the dumped record. -/
def saveHistoryJson (history : Json) : Option Json :=
  some history

/-- The well-formedness the C6 claim assumes of the record: a JSON object
carrying all four top-level keys, whose `"statistics"` member is an
object carrying all nine statistics keys. -/
def wellFormedHistoryJson : Json → Bool
  | .obj kvs =>
      requiredTopKeys.all (dictHasKey kvs) &&
      (match lookupKey "statistics" kvs with
       | some (.obj skvs) => requiredStatsKeys.all (dictHasKey skvs)
       | _ => false)
  | _ => false

/-! ### Concrete instances used by witnesses and counterexamples -/

/-- A plain configuration: no patterns, no blocked extensions. -/
def cfgPlain : Config :=
  { excludePatterns := [], systemExecutableExtensions := [],
    excludeSymlinks := true, cacheTtl := 5, maxFileSizeForFullHash := 100 }

/-- A configuration whose only pattern is the Office-temp-file pattern
`~$*` from the default `exclude_patterns` list. -/
def cfgTilde : Config :=
  { cfgPlain with excludePatterns := ["~$*"] }

/-- An ordinary readable regular file whose name contains the characters
`~$*` literally, without starting with them. -/
def entryTilde : Entry :=
  { name := "a~$*b", entryIsFile := true, entryStatFails := false,
    pathExists := true, pathIsFile := true, readable := true,
    isSymlink := false, accessError := false }

/-- An ordinary eligible file named `a.txt`. -/
def entryPlainTxt : Entry :=
  { name := "a.txt", entryIsFile := true, entryStatFails := false,
    pathExists := true, pathIsFile := true, readable := true,
    isSymlink := false, accessError := false }

/-- A directory holding exactly `a.txt`. -/
def fsOneFile : DirFs :=
  { dirReadable := true, dirExists := true, listing := some [entryPlainTxt] }

/-- A stand-in digest for witnesses; the claims hold for every digest
function, so any concrete one will do. -/
def shaStub (bs : List Nat) : String :=
  String.join (bs.map (fun b => toString b ++ "-"))

/-- A three-byte file before its modification time is touched. -/
def fiBefore : FileInfo :=
  { size := 3, mtime := 10, content := [1, 2, 3], readFails := false }

/-- The same file after `touch`: only the mtime differs. -/
def fiAfter : FileInfo :=
  { size := 3, mtime := 11, content := [1, 2, 3], readFails := false }

def fsBefore : String → Option FileInfo :=
  fun p => if p = "f.bin" then some fiBefore else none

def fsAfter : String → Option FileInfo :=
  fun p => if p = "f.bin" then some fiAfter else none

/-- A large (beyond the 2-byte full-hash cap below) file whose reads fail. -/
def fiBroken : FileInfo :=
  { size := 3, mtime := 10, content := [1, 2, 3], readFails := true }

def fsBroken : String → Option FileInfo :=
  fun p => if p = "f.bin" then some fiBroken else none

/-- A configuration forcing the sampling path for `fiBroken`. -/
def cfgTinyFullHash : Config :=
  { cfgPlain with maxFileSizeForFullHash := 2 }

/-- A fresh opener state (no caches populated, no durable history). -/
def stFresh : OpenerState :=
  { scan := { cache := none, timestamp := 0 },
    fileHashCache := lruInit String String 100,
    excludePatternsCache := lruInit String Bool 500,
    encodingCache := lruInit String String 50,
    fileAccessCache := lruInit String Bool 50,
    fileTypeCache := lruInit String String 200,
    savedHistory := none }

/-- A history in which `a.txt` has already been opened. -/
def histOpenedA : History :=
  { openedFiles := ["a.txt"], failedFiles := [], fileSignatures := [],
    statistics := { totalOpened := 1, totalFailed := 0, lastReset := none,
                    resetCount := 0, lastOpened := none, lastOpenedFile := some "a.txt",
                    cleanedOpened := 0, cleanedFailed := 0, totalResets := 0 } }

/-! ## Theorems -/

/-! ### Shared helper lemmas -/

/-- A skip/append fold builds exactly the filter of the complemented
predicate, appended to the accumulator. -/
theorem foldl_skip_eq_filter {α : Type} (p : α → Bool) :
    ∀ (l acc : List α),
      l.foldl (fun a x => if p x then a else a ++ [x]) acc =
        acc ++ l.filter (fun x => !(p x)) := by
  intro l
  induction l with
  | nil => intro acc; simp
  | cons x xs ih =>
      intro acc
      by_cases h : p x = true
      · simp [List.foldl, h, ih]
      · simp only [Bool.not_eq_true] at h
        simp [List.foldl, h, ih]

theorem mem_eraseKey {K V : Type} [DecidableEq K] (k : K) (es : List (K × V)) (p : K × V) :
    p ∈ eraseKey k es ↔ p ∈ es ∧ p.1 ≠ k := by
  simp [eraseKey, List.mem_filter]

theorem eraseKey_sublist {K V : Type} [DecidableEq K] (k : K) (es : List (K × V)) :
    (eraseKey k es).Sublist es :=
  List.filter_sublist es

theorem lookupKey_eq_none_iff {K V : Type} [DecidableEq K] (k : K) (es : List (K × V)) :
    lookupKey k es = none ↔ ∀ p ∈ es, p.1 ≠ k := by
  induction es with
  | nil => simp [lookupKey]
  | cons q rest ih =>
      obtain ⟨k', v⟩ := q
      by_cases h : k' = k
      · subst h
        simp [lookupKey]
      · simp [lookupKey, h, ih]

theorem eraseKey_length_lt {K V : Type} [DecidableEq K] (k : K) (es : List (K × V))
    (v : V) (h : lookupKey k es = some v) : (eraseKey k es).length < es.length := by
  induction es with
  | nil => simp [lookupKey] at h
  | cons q rest ih =>
      obtain ⟨k', v'⟩ := q
      by_cases hk : k' = k
      · subst hk
        have hle : (eraseKey k' rest).length ≤ rest.length :=
          (eraseKey_sublist k' rest).length_le
        have hdrop : eraseKey k' ((k', v') :: rest) = eraseKey k' rest := by
          simp [eraseKey]
        rw [hdrop, List.length_cons]
        omega
      · simp only [lookupKey, if_neg hk] at h
        have := ih h
        simp only [eraseKey, List.filter, decide_eq_true_eq, hk, Bool.not_false,
          List.length_cons]
        simp only [eraseKey] at this
        split
        · simp only [List.length_cons]; omega
        · omega

/-! ### C1 — `get_available_files` returns qualified minus the union of
the two history sets, in scan order -/

/-- C1: for every history record and successful scan result, the
available list is exactly the qualified list filtered down to names in
neither `opened_files` nor `failed_files` — membership is qualified-and-
unprocessed, and the scan's enumeration order is preserved (the result is
a sublist of the qualified list). -/
theorem getAvailableFiles_spec (h : History) (qs : List String) (e : Option String) :
    getAvailableFiles h (qs, true, e) =
      (qs.filter
        (fun f => !(decide (f ∈ h.openedFiles) || decide (f ∈ h.failedFiles))),
       h, true, none) ∧
    (∀ f, f ∈ (getAvailableFiles h (qs, true, e)).1 ↔
        f ∈ qs ∧ f ∉ h.openedFiles ∧ f ∉ h.failedFiles) ∧
    (getAvailableFiles h (qs, true, e)).1.Sublist qs := by
  have heq : getAvailableFiles h (qs, true, e) =
      (qs.filter
        (fun f => !(decide (f ∈ h.openedFiles) || decide (f ∈ h.failedFiles))),
       h, true, none) := by
    simp only [getAvailableFiles, Bool.not_true, Bool.false_eq_true, if_false]
    rw [foldl_skip_eq_filter
      (fun f => decide (f ∈ h.openedFiles) || decide (f ∈ h.failedFiles)) qs []]
    simp
  refine ⟨heq, ?_, ?_⟩
  · intro f
    rw [heq]
    simp [List.mem_filter, not_or]
  · rw [heq]
    exact List.filter_sublist qs

/-- Witness for C1 at a concrete history and scan. -/
theorem getAvailableFiles_spec_witness :
    (getAvailableFiles histOpenedA (["a.txt", "b.txt"], true, none)).1 = ["b.txt"] := by
  have h := (getAvailableFiles_spec histOpenedA ["a.txt", "b.txt"] none).1
  rw [h]
  decide

/-! ### C3 — recording an outcome keeps `opened_files` and
`failed_files` mutually exclusive -/

/-- C3: the record-outcome step of `run` moves the selected filename into
one set and out of the other, so if the two sets were disjoint
(duplicate-free, as every record the program itself builds is), they are
disjoint again afterwards — no filename lands in both. -/
theorem recordOutcome_mutual_exclusion (h : History) (sel : String) (success : Bool)
    (hop : h.openedFiles.Nodup) (hfa : h.failedFiles.Nodup)
    (hdisj : ∀ f, f ∈ h.openedFiles → f ∉ h.failedFiles) :
    ∀ f, ¬(f ∈ (recordOutcome h sel success).openedFiles ∧
           f ∈ (recordOutcome h sel success).failedFiles) := by
  intro f hf
  obtain ⟨hfo, hff⟩ := hf
  cases success with
  | true =>
      simp only [recordOutcome, if_pos rfl] at hfo hff
      by_cases hself : f = sel
      · subst hself
        by_cases hmem : f ∈ h.failedFiles
        · simp only [if_pos hmem] at hff
          exact (List.Nodup.not_mem_erase hfa) hff
        · simp only [if_neg hmem] at hff
          exact hmem hff
      · have hfo' : f ∈ h.openedFiles := by
          by_cases hmem : sel ∈ h.openedFiles
          · simpa [if_pos hmem] using hfo
          · rcases (by simpa [if_neg hmem, List.mem_append] using hfo :
              f ∈ h.openedFiles ∨ f = sel) with h' | h'
            · exact h'
            · exact absurd h' hself
        have hff' : f ∈ h.failedFiles := by
          by_cases hmem : sel ∈ h.failedFiles
          · exact List.mem_of_mem_erase (by simpa [if_pos hmem] using hff)
          · simpa [if_neg hmem] using hff
        exact hdisj f hfo' hff'
  | false =>
      simp only [recordOutcome, Bool.false_eq_true, if_neg (by simp : ¬False)] at hfo hff
      by_cases hself : f = sel
      · subst hself
        by_cases hmem : f ∈ h.openedFiles
        · simp only [if_pos hmem] at hfo
          exact (List.Nodup.not_mem_erase hop) hfo
        · simp only [if_neg hmem] at hfo
          exact hmem hfo
      · have hff' : f ∈ h.failedFiles := by
          by_cases hmem : sel ∈ h.failedFiles
          · simpa [if_pos hmem] using hff
          · rcases (by simpa [if_neg hmem, List.mem_append] using hff :
              f ∈ h.failedFiles ∨ f = sel) with h' | h'
            · exact h'
            · exact absurd h' hself
        have hfo' : f ∈ h.openedFiles := by
          by_cases hmem : sel ∈ h.openedFiles
          · exact List.mem_of_mem_erase (by simpa [if_pos hmem] using hfo)
          · simpa [if_neg hmem] using hfo
        exact hdisj f hfo' hff'

/-- Witness for C3: recording a failure for an already-opened file. -/
theorem recordOutcome_mutual_exclusion_witness :
    ¬("a.txt" ∈ (recordOutcome histOpenedA "a.txt" false).openedFiles ∧
      "a.txt" ∈ (recordOutcome histOpenedA "a.txt" false).failedFiles) :=
  recordOutcome_mutual_exclusion histOpenedA "a.txt" false
    (by decide) (by decide) (by decide) "a.txt"

/-! ### C8 — a fresh-enough cached qualified set is served without
touching the filesystem -/

/-- C8: when a qualified-set cache entry exists, no refresh is forced and
the entry's age is strictly below `cache_ttl`, `scan_qualified_files`
returns the cached list with success and no error, leaves its state
untouched, and its outcome does not depend on the directory contents at
all (the same result for every filesystem — no listing, no access). -/
theorem scanQualifiedFiles_cache_hit (cfg : Config) (st : ScanState) (now : Int)
    (l : List String) (hc : st.cache = some l)
    (ht : now - st.timestamp < cfg.cacheTtl) :
    ∀ fs : DirFs, scanQualifiedFiles cfg fs st now false = ((l, true, none), st) := by
  intro fs
  simp [scanQualifiedFiles, hc, ht]

/-- Witness for C8: a cache written at time 3 and read back at time 6
with a TTL of 5, over two very different filesystems. -/
theorem scanQualifiedFiles_cache_hit_witness :
    scanQualifiedFiles cfgPlain fsOneFile { cache := some ["x.txt"], timestamp := 3 } 6 false =
      ((["x.txt"], true, none), { cache := some ["x.txt"], timestamp := 3 }) ∧
    scanQualifiedFiles cfgPlain { dirReadable := false, dirExists := false, listing := none }
        { cache := some ["x.txt"], timestamp := 3 } 6 false =
      ((["x.txt"], true, none), { cache := some ["x.txt"], timestamp := 3 }) :=
  ⟨scanQualifiedFiles_cache_hit cfgPlain { cache := some ["x.txt"], timestamp := 3 } 6
      ["x.txt"] rfl (by decide) fsOneFile,
   scanQualifiedFiles_cache_hit cfgPlain { cache := some ["x.txt"], timestamp := 3 } 6
      ["x.txt"] rfl (by decide) { dirReadable := false, dirExists := false, listing := none }⟩

/-! ### C9 / C10 — `get_file_hash` error handling and the
truthiness-based cache check -/

/-- The value `get_file_hash` computes after deciding not to serve a
cached result depends only on the file, never on the cache contents. -/
theorem computeAndCacheHash_fst (cfg : Config) (sha : List Nat → String)
    (fi : FileInfo) (key : String) (cache : LRUState String String) :
    (computeAndCacheHash cfg sha fi key cache).1 =
      if fi.size ≤ cfg.maxFileSizeForFullHash then
        (if fi.readFails then "" else sha fi.content)
      else getSamplingHash sha fi := by
  unfold computeAndCacheHash
  split_ifs <;> rfl

/-- C9: `get_file_hash` returns the empty string instead of raising when
the path does not exist, and likewise when an I/O error hits the actual
hash computation (on either the full-content or the sampling path; the
cache-lookup hypothesis states that the computation really runs rather
than a previous result being served). -/
theorem getFileHash_unavailable (cfg : Config) (sha : List Nat → String)
    (fs : String → Option FileInfo) (cache : LRUState String String) (path : String) :
    (fs path = none → getFileHash cfg sha fs cache path = ("", cache)) ∧
    (∀ fi, fs path = some fi → fi.readFails = true →
      (lookupKey (hashCacheKey path fi) cache.entries = none ∨
       lookupKey (hashCacheKey path fi) cache.entries = some "") →
      (getFileHash cfg sha fs cache path).1 = "") := by
  constructor
  · intro h
    simp [getFileHash, h]
  · intro fi hfs hfail hcache
    have hval : ∀ c, (computeAndCacheHash cfg sha fi (hashCacheKey path fi) c).1 = "" := by
      intro c
      rw [computeAndCacheHash_fst]
      simp [hfail, getSamplingHash]
    rcases hcache with hnone | hempty
    · simp [getFileHash, hfs, lruGet, hnone, hval]
    · simp [getFileHash, hfs, lruGet, hempty, hval]

/-- Witness for C9: a missing path, a small file with failing reads, and
a large file with failing reads all hash to the empty string. -/
theorem getFileHash_unavailable_witness :
    getFileHash cfgPlain shaStub fsBefore (lruInit String String 100) "absent.bin" =
      ("", lruInit String String 100) ∧
    (getFileHash cfgPlain shaStub fsBroken (lruInit String String 100) "f.bin").1 = "" ∧
    (getFileHash cfgTinyFullHash shaStub fsBroken (lruInit String String 100) "f.bin").1 = "" :=
  ⟨(getFileHash_unavailable cfgPlain shaStub fsBefore
      (lruInit String String 100) "absent.bin").1 (by decide),
   (getFileHash_unavailable cfgPlain shaStub fsBroken
      (lruInit String String 100) "f.bin").2 fiBroken (by decide) (by decide)
      (Or.inl (by decide)),
   (getFileHash_unavailable cfgTinyFullHash shaStub fsBroken
      (lruInit String String 100) "f.bin").2 fiBroken (by decide) (by decide)
      (Or.inl (by decide))⟩

/-- C10: a cached empty string — the fingerprint a failed sampling hash
leaves behind — is never served: because line 542 tests truthiness
(`if cached_result:`) rather than presence, the call falls through to a
fresh computation and returns exactly what a cold cache would return. -/
theorem getFileHash_empty_cache_entry_recomputes (cfg : Config)
    (sha : List Nat → String) (fs : String → Option FileInfo)
    (cache : LRUState String String) (path : String) (fi : FileInfo)
    (hfs : fs path = some fi)
    (hcache : lookupKey (hashCacheKey path fi) cache.entries = some "") :
    (getFileHash cfg sha fs cache path).1 =
      (getFileHash cfg sha fs (lruClear cache) path).1 := by
  simp [getFileHash, hfs, lruGet, hcache, lruClear, lookupKey,
    computeAndCacheHash_fst]

/-- Witness for C10: the hash cache holds `""` for the key of `f.bin`,
yet the returned hash is the freshly computed digest, not `""`. -/
theorem getFileHash_empty_cache_entry_recomputes_witness :
    (getFileHash cfgPlain shaStub fsBefore
        { maxSize := 100, entries := [("f.bin_3_10", "")], hits := 0, misses := 0 }
        "f.bin").1 =
      (getFileHash cfgPlain shaStub fsBefore
        (lruClear { maxSize := 100, entries := [("f.bin_3_10", "")], hits := 0, misses := 0 })
        "f.bin").1 ∧
    (getFileHash cfgPlain shaStub fsBefore
        { maxSize := 100, entries := [("f.bin_3_10", "")], hits := 0, misses := 0 }
        "f.bin").1 = "1-2-3-" :=
  ⟨getFileHash_empty_cache_entry_recomputes cfgPlain shaStub fsBefore
      { maxSize := 100, entries := [("f.bin_3_10", "")], hits := 0, misses := 0 }
      "f.bin" fiBefore (by decide) (by decide),
   by decide⟩

/-! ### C5 — touching only the mtime does NOT change the returned hash -/

/-- Counterexample to C5: a concrete readable file whose modification
time alone changes (content and size identical); `get_file_hash` returns
the SAME hash string before and after, contradicting the claim that the
returned hash differs.  (The mtime only enters the cache key.) -/
theorem getFileHash_mtime_counterexample :
    fiBefore.content = fiAfter.content ∧
    fiBefore.size = fiAfter.size ∧
    fiBefore.mtime ≠ fiAfter.mtime ∧
    (getFileHash cfgPlain shaStub fsBefore (lruInit String String 100) "f.bin").1 =
      (getFileHash cfgPlain shaStub fsAfter (lruInit String String 100) "f.bin").1 := by
  refine ⟨rfl, rfl, by decide, by decide⟩

/-- C5 as amended: changing only the mtime changes the hash-cache key (so
no stale cached result can be served for the new stat data), but the hash
`get_file_hash` then returns is EQUAL to the previous one, because the
digest is a function of the file's bytes and size alone. -/
theorem getFileHash_mtime_only_change (cfg : Config) (sha : List Nat → String)
    (path : String) (fi1 fi2 : FileInfo) (fs1 fs2 : String → Option FileInfo)
    (cap : Nat) (h1 : fs1 path = some fi1) (h2 : fs2 path = some fi2)
    (hc : fi1.content = fi2.content) (hs : fi1.size = fi2.size)
    (hr1 : fi1.readFails = false) (hr2 : fi2.readFails = false) :
    (toString fi1.mtime ≠ toString fi2.mtime →
      hashCacheKey path fi1 ≠ hashCacheKey path fi2) ∧
    (getFileHash cfg sha fs1 (lruInit String String cap) path).1 =
      (getFileHash cfg sha fs2 (lruInit String String cap) path).1 := by
  constructor
  · intro hne heq
    apply hne
    have h' := congrArg String.data heq
    simp only [hashCacheKey, hs, String.data_append] at h'
    exact congrArg String.mk (List.append_cancel_left h')
  · simp only [getFileHash, h1, h2, lruInit, lruGet, lookupKey]
    rw [computeAndCacheHash_fst, computeAndCacheHash_fst]
    rw [hc, hs, hr1, hr2]
    simp [getSamplingHash, hr1, hr2, hc, hs]

/-- Witness for the amended C5 at the concrete touched file. -/
theorem getFileHash_mtime_only_change_witness :
    hashCacheKey "f.bin" fiBefore ≠ hashCacheKey "f.bin" fiAfter ∧
    (getFileHash cfgPlain shaStub fsBefore (lruInit String String 100) "f.bin").1 =
      (getFileHash cfgPlain shaStub fsAfter (lruInit String String 100) "f.bin").1 := by
  have h := getFileHash_mtime_only_change cfgPlain shaStub "f.bin" fiBefore fiAfter
    fsBefore fsAfter 100 (by decide) (by decide) rfl rfl rfl rfl
  exact ⟨h.1 (by decide), h.2⟩

/-! ### C4 — pattern evaluation order in `should_exclude` -/

/-- One pattern's clause in the source's loop, as an explicit
disjunction: for a non-`*.` pattern, substring containment is consulted
BEFORE the wildcard/glob test. -/
theorem patternClauseIff (p f : String) :
    (if p = "" then false
     else if strStartsWith p "*." then
       strEndsWith (strToLower f) (strToLower (strDrop p 1))
     else if strContains f p then true
     else if p.data.contains '*' || p.data.contains '?' then fnmatchMatch f p
     else false) = true ↔
    p ≠ "" ∧
      ((strStartsWith p "*." = true ∧
          strEndsWith (strToLower f) (strToLower (strDrop p 1)) = true) ∨
       (strStartsWith p "*." = false ∧
         (strContains f p = true ∨
          ((p.data.contains '*' || p.data.contains '?') = true ∧
            fnmatchMatch f p = true)))) := by
  split_ifs with h1 h2 h3 h4 <;> simp_all

/-- Counterexample to C4: under the single configured pattern `~$*`
(which holds a wildcard), the file `a~$*b` — whose name contains the
characters `~$*` literally but does not glob-match the pattern — IS
excluded by the code ("pattern match"), while the spec's evaluation order
(glob for wildcard patterns, substring only for wildcard-free ones) does
not exclude it: the code tries substring containment before the glob
test for every non-`*.` pattern. -/
theorem shouldExclude_pattern_order_counterexample :
    shouldExclude cfgTilde entryTilde = (true, some ExcludeReason.patternMatch) ∧
    shouldExcludeSpec cfgTilde entryTilde = (false, none) := by
  constructor <;> decide

/-- C4 as amended: patterns are evaluated in declaration order; a `*.`
pattern is a case-insensitive suffix test on `pattern[1:]`; any other
(non-empty) pattern matches if it occurs as a literal substring of the
filename, OR, failing that, if it holds a `*`/`?` wildcard and
glob-matches the filename; the first matching pattern excludes the file
with reason "pattern match". -/
theorem patternMatches_amended :
    (∀ (patterns : List String) (filename : String),
      patternMatches patterns filename = true ↔
        ∃ p ∈ patterns, p ≠ "" ∧
          ((strStartsWith p "*." = true ∧
              strEndsWith (strToLower filename) (strToLower (strDrop p 1)) = true) ∨
           (strStartsWith p "*." = false ∧
             (strContains filename p = true ∨
              ((p.data.contains '*' || p.data.contains '?') = true ∧
                fnmatchMatch filename p = true))))) ∧
    (∀ (cfg : Config) (e : Entry), e.name ≠ "" →
      strStartsWith e.name "." = false → strStartsWith e.name "~" = false →
      patternMatches cfg.excludePatterns e.name = true →
      shouldExclude cfg e = (true, some ExcludeReason.patternMatch)) := by
  constructor
  · intro patterns filename
    simp only [patternMatches, List.any_eq_true]
    exact exists_congr fun p =>
      and_congr_right fun _ => patternClauseIff p filename
  · intro cfg e hne hdot htilde hpat
    simp [shouldExclude, hne, hdot, htilde, hpat]

/-- Witness for the amended C4 at the counterexample's inputs. -/
theorem patternMatches_amended_witness :
    patternMatches ["~$*"] "a~$*b" = true ∧
    shouldExclude cfgTilde entryTilde = (true, some ExcludeReason.patternMatch) := by
  have h := patternMatches_amended
  constructor
  · exact (h.1 ["~$*"] "a~$*b").2
      ⟨"~$*", by decide, by decide, Or.inr ⟨by decide, Or.inl (by decide)⟩⟩
  · exact h.2 cfgTilde entryTilde (by decide) (by decide) (by decide) (by decide)

/-! ### C6 — `save_history` then `load_history` round-trips a
well-formed record -/

/-- Filling missing keys is the identity when every key is present. -/
theorem foldl_fill_missing_id (d : String → Json) :
    ∀ (keys : List String) (kvs : List (String × Json)),
      (∀ k ∈ keys, dictHasKey kvs k = true) →
      keys.foldl
        (fun acc key => if dictHasKey acc key then acc else acc ++ [(key, d key)])
        kvs = kvs := by
  intro keys
  induction keys with
  | nil => intro kvs _; rfl
  | cons k ks ih =>
      intro kvs hall
      have hk : dictHasKey kvs k = true := hall k (by simp)
      simp only [List.foldl, hk, if_pos]
      exact ih kvs fun k' h' => hall k' (by simp [h'])

/-- Overwriting a key with the value it already holds is the identity. -/
theorem dictSet_lookup_self (k : String) (v : Json) :
    ∀ (kvs : List (String × Json)), lookupKey k kvs = some v → dictSet kvs k v = kvs := by
  intro kvs
  induction kvs with
  | nil => intro h; simp [lookupKey] at h
  | cons q rest ih =>
      intro h
      obtain ⟨k', v'⟩ := q
      by_cases hk : k' = k
      · subst hk
        simp [lookupKey] at h
        subst h
        simp [dictSet]
      · simp [lookupKey, hk] at h
        simp [dictSet, hk, ih h]

/-- C6: for every well-formed history record — a JSON object with all of
`opened_files`, `failed_files`, `file_signatures` and a complete
`statistics` substructure — `save_history` followed by `load_history`
returns the record unchanged: every repair step of the loader is the
identity when nothing is missing. -/
theorem load_save_history_roundtrip (j : Json)
    (hwf : wellFormedHistoryJson j = true) :
    loadHistoryJson (saveHistoryJson j) = j := by
  cases j with
  | obj kvs =>
      simp only [wellFormedHistoryJson, Bool.and_eq_true, List.all_eq_true] at hwf
      obtain ⟨htop, hstats⟩ := hwf
      have h1 : requiredTopKeys.foldl
          (fun acc key =>
            if dictHasKey acc key then acc else acc ++ [(key, defaultTopValue key)])
          kvs = kvs :=
        foldl_fill_missing_id defaultTopValue requiredTopKeys kvs htop
      rcases hlk : lookupKey "statistics" kvs with _ | sv
      · rw [hlk] at hstats; simp at hstats
      · cases sv with
        | obj skvs =>
            rw [hlk] at hstats
            simp only at hstats
            have h2 : requiredStatsKeys.foldl
                (fun acc key =>
                  if dictHasKey acc key then acc
                  else acc ++ [(key, (lookupKey key defaultStatisticsJson).getD .null)])
                skvs = skvs :=
              foldl_fill_missing_id
                (fun key => (lookupKey key defaultStatisticsJson).getD .null)
                requiredStatsKeys skvs (List.all_eq_true.mp hstats)
            simp only [loadHistoryJson, saveHistoryJson, repairHistoryJson, h1, hlk, h2]
            rw [dictSet_lookup_self "statistics" (.obj skvs) kvs hlk]
        | null => rw [hlk] at hstats; simp at hstats
        | bool b => rw [hlk] at hstats; simp at hstats
        | num n => rw [hlk] at hstats; simp at hstats
        | str s => rw [hlk] at hstats; simp at hstats
        | arr xs => rw [hlk] at hstats; simp at hstats
  | null => simp [wellFormedHistoryJson] at hwf
  | bool b => simp [wellFormedHistoryJson] at hwf
  | num n => simp [wellFormedHistoryJson] at hwf
  | str s => simp [wellFormedHistoryJson] at hwf
  | arr xs => simp [wellFormedHistoryJson] at hwf

/-- Witness for C6: the default record (which is well-formed) survives
the save/load round trip unchanged. -/
theorem load_save_history_roundtrip_witness :
    loadHistoryJson (saveHistoryJson defaultHistoryJson) = defaultHistoryJson :=
  load_save_history_roundtrip defaultHistoryJson (by rfl)

/-! ### C2 — automatic history reset on exhaustion -/

/-- C2: with no available file, `reset_history_if_needed` force-refreshes
the scan; if the refreshed qualified set is non-empty it clears
`opened_files`/`failed_files`/`file_signatures`, increments
`reset_count`/`total_resets`, stamps `last_reset`, persists the cleared
record, drops the qualified-set cache and clears every LRU cache
(hash/pattern/encoding/access/type), and returns the full qualified set;
if the refreshed set is empty — or the available list was non-empty to
begin with — the inputs are returned unchanged. -/
theorem resetHistoryIfNeeded_spec (cfg : Config) (fs : DirFs) (now : Int)
    (nowIso : String) (st : OpenerState) (history : History) (avail : List String) :
    (avail ≠ [] →
      resetHistoryIfNeeded cfg fs now nowIso st history avail = (avail, history, st)) ∧
    (∀ qs sSt, avail = [] →
      scanQualifiedFiles cfg fs st.scan now true = ((qs, true, none), sSt) →
      ((qs = [] →
         resetHistoryIfNeeded cfg fs now nowIso st history avail =
           (avail, history, { st with scan := sSt })) ∧
       (qs ≠ [] →
         let r := resetHistoryIfNeeded cfg fs now nowIso st history avail
         r.1 = qs ∧
         r.2.1.openedFiles = [] ∧
         r.2.1.failedFiles = [] ∧
         r.2.1.fileSignatures = [] ∧
         r.2.1.statistics.resetCount = history.statistics.resetCount + 1 ∧
         r.2.1.statistics.totalResets = history.statistics.totalResets + 1 ∧
         r.2.1.statistics.lastReset = some nowIso ∧
         r.2.2.savedHistory = some r.2.1 ∧
         r.2.2.scan.cache = none ∧
         r.2.2.fileHashCache = lruClear st.fileHashCache ∧
         r.2.2.excludePatternsCache = lruClear st.excludePatternsCache ∧
         r.2.2.encodingCache = lruClear st.encodingCache ∧
         r.2.2.fileAccessCache = lruClear st.fileAccessCache ∧
         r.2.2.fileTypeCache = lruClear st.fileTypeCache))) := by
  constructor
  · intro hne
    cases avail with
    | nil => exact absurd rfl hne
    | cons a as => simp [resetHistoryIfNeeded]
  · intro qs sSt hav hscan
    subst hav
    constructor
    · intro hq
      subst hq
      simp [resetHistoryIfNeeded, hscan]
    · intro hq
      have hne : qs.isEmpty = false := by
        cases qs with
        | nil => exact absurd rfl hq
        | cons a as => rfl
      refine ⟨?_, ?_, ?_, ?_, ?_, ?_, ?_, ?_, ?_, ?_, ?_, ?_, ?_, ?_⟩ <;>
        simp [resetHistoryIfNeeded, hscan, hne, saveHistoryTo]

/-- Witness for C2: an exhausted history over a directory holding
`a.txt`; the reset returns `a.txt` as available again, bumps the reset
counters and persists the cleared record. -/
theorem resetHistoryIfNeeded_spec_witness :
    (resetHistoryIfNeeded cfgPlain fsOneFile 7 "2024-01-01T00:00:00" stFresh
        histOpenedA []).1 = ["a.txt"] ∧
    (resetHistoryIfNeeded cfgPlain fsOneFile 7 "2024-01-01T00:00:00" stFresh
        histOpenedA []).2.1.openedFiles = [] ∧
    (resetHistoryIfNeeded cfgPlain fsOneFile 7 "2024-01-01T00:00:00" stFresh
        histOpenedA []).2.1.statistics.resetCount =
      histOpenedA.statistics.resetCount + 1 := by
  have h := ((resetHistoryIfNeeded_spec cfgPlain fsOneFile 7 "2024-01-01T00:00:00"
      stFresh histOpenedA []).2 ["a.txt"] { cache := some ["a.txt"], timestamp := 7 }
      rfl (by decide)).2 (by decide)
  exact ⟨h.1, h.2.1, h.2.2.2.2.1⟩

/-! ### C7 — bounded size and least-recently-used eviction -/

/-- Rebuilding the entry list as "survivors (in old order) with the
touched key appended" preserves the recency-sortedness invariant, for any
survivor list that is a sublist of the old entries and avoids the touched
key. -/
theorem rebuild_inv {K V : Type} [DecidableEq K] (c : TrackedCache K V)
    (hinv : CacheInv c) (k : K) (v : V) (l : List (K × V))
    (hsub : l.Sublist c.st.entries) (hnk : ∀ p ∈ l, p.1 ≠ k) :
    ((l ++ [(k, v)]).Pairwise
        (fun p q => updateFn c.lastUse k c.time p.1 < updateFn c.lastUse k c.time q.1)) ∧
    (∀ p ∈ l ++ [(k, v)], updateFn c.lastUse k c.time p.1 < c.time + 1) := by
  have hfix : ∀ p ∈ l, updateFn c.lastUse k c.time p.1 = c.lastUse p.1 := by
    intro p hp
    simp [updateFn, hnk p hp]
  have hbound : ∀ p ∈ l, c.lastUse p.1 < c.time :=
    fun p hp => hinv.2 p (hsub.subset hp)
  constructor
  · rw [List.pairwise_append]
    refine ⟨?_, by simp, ?_⟩
    · refine List.Pairwise.imp_of_mem ?_ (List.Pairwise.sublist hsub hinv.1)
      intro a b ha hb hab
      rw [hfix a ha, hfix b hb]
      exact hab
    · intro a ha b hb
      simp only [List.mem_singleton] at hb
      subst hb
      rw [hfix a ha]
      have hk : updateFn c.lastUse k c.time (k, v).1 = c.time := by simp [updateFn]
      rw [hk]
      exact hbound a ha
  · intro p hp
    rcases List.mem_append.mp hp with h | h
    · rw [hfix p h]
      exact Nat.lt_succ_of_lt (hbound p h)
    · simp only [List.mem_singleton] at h
      subst h
      simp [updateFn]

/-- One instrumented cache operation preserves the recency invariant, the
size bound, and the capacity. -/
theorem trackedStep_preserves {K V : Type} [DecidableEq K] (c : TrackedCache K V)
    (op : CacheOp K V) (hinv : CacheInv c)
    (hlen : c.st.entries.length ≤ c.st.maxSize) (hpos : 0 < c.st.maxSize) :
    CacheInv (trackedStep c op) ∧
    (trackedStep c op).st.entries.length ≤ (trackedStep c op).st.maxSize ∧
    (trackedStep c op).st.maxSize = c.st.maxSize := by
  cases op with
  | get k =>
      cases hlk : lookupKey k c.st.entries with
      | none =>
          simp only [trackedStep, lruGet, hlk, Option.isSome_none, Bool.false_eq_true,
            if_false]
          exact ⟨⟨hinv.1, fun p hp => Nat.lt_succ_of_lt (hinv.2 p hp)⟩, hlen, trivial⟩
      | some v =>
          have hnk : ∀ p ∈ eraseKey k c.st.entries, p.1 ≠ k :=
            fun p hp => ((mem_eraseKey k c.st.entries p).mp hp).2
          have hre := rebuild_inv c hinv k v (eraseKey k c.st.entries)
            (eraseKey_sublist k c.st.entries) hnk
          have hll := eraseKey_length_lt k c.st.entries v hlk
          simp only [trackedStep, lruGet, hlk, Option.isSome_some, if_true]
          refine ⟨⟨hre.1, hre.2⟩, ?_, trivial⟩
          simp only [List.length_append, List.length_singleton]
          omega
  | put k v =>
      cases hlk : lookupKey k c.st.entries with
      | some v0 =>
          have hnk : ∀ p ∈ eraseKey k c.st.entries, p.1 ≠ k :=
            fun p hp => ((mem_eraseKey k c.st.entries p).mp hp).2
          have hre := rebuild_inv c hinv k v (eraseKey k c.st.entries)
            (eraseKey_sublist k c.st.entries) hnk
          have hll := eraseKey_length_lt k c.st.entries v0 hlk
          simp only [trackedStep, lruPut, hlk]
          refine ⟨⟨hre.1, hre.2⟩, ?_, trivial⟩
          simp only [List.length_append, List.length_singleton]
          omega
      | none =>
          have hnotin : ∀ p ∈ c.st.entries, p.1 ≠ k :=
            (lookupKey_eq_none_iff k c.st.entries).mp hlk
          by_cases hfull : c.st.entries.length ≥ c.st.maxSize
          · have hnk : ∀ p ∈ c.st.entries.drop 1, p.1 ≠ k :=
              fun p hp => hnotin p ((List.drop_sublist 1 c.st.entries).subset hp)
            have hre := rebuild_inv c hinv k v (c.st.entries.drop 1)
              (List.drop_sublist 1 c.st.entries) hnk
            simp only [trackedStep, lruPut, hlk, if_pos hfull]
            refine ⟨⟨hre.1, hre.2⟩, ?_, trivial⟩
            simp only [List.length_append, List.length_singleton, List.length_drop]
            omega
          · have hre := rebuild_inv c hinv k v c.st.entries
              (List.Sublist.refl c.st.entries) hnotin
            simp only [trackedStep, lruPut, hlk, if_neg hfull]
            refine ⟨⟨hre.1, hre.2⟩, ?_, trivial⟩
            simp only [List.length_append, List.length_singleton]
            omega

/-- The invariants hold after any sequence of operations. -/
theorem trackedFold_preserves {K V : Type} [DecidableEq K] :
    ∀ (ops : List (CacheOp K V)) (c : TrackedCache K V),
      CacheInv c → c.st.entries.length ≤ c.st.maxSize → 0 < c.st.maxSize →
      CacheInv (ops.foldl trackedStep c) ∧
      (ops.foldl trackedStep c).st.entries.length ≤
        (ops.foldl trackedStep c).st.maxSize ∧
      (ops.foldl trackedStep c).st.maxSize = c.st.maxSize := by
  intro ops
  induction ops with
  | nil => intro c h1 h2 _; exact ⟨h1, h2, rfl⟩
  | cons op rest ih =>
      intro c h1 h2 h3
      have hstep := trackedStep_preserves c op h1 h2 h3
      have hrec := ih (trackedStep c op) hstep.1 hstep.2.1 (hstep.2.2 ▸ h3)
      exact ⟨hrec.1, hrec.2.1, hrec.2.2.trans hstep.2.2⟩

/-- C7: after ANY sequence of operations on a cache of positive capacity
(in particular any sequence of puts longer than the capacity), the size
never exceeds the capacity; and whenever a further `put` evicts — a fresh
key arriving with the cache full — the evicted entry is the front one,
which at that moment is least-recently-used: its last-use time is minimal
among all resident entries (recency having been refreshed by `get` hits
and `put`s alike). -/
theorem lru_bounded_and_evicts_lru {K V : Type} [DecidableEq K] (maxSize : Nat)
    (hpos : 0 < maxSize) (ops : List (CacheOp K V)) :
    (trackedRun maxSize ops).st.entries.length ≤ maxSize ∧
    (∀ (k : K) (v : V) (p : K × V) (rest : List (K × V)),
      lookupKey k (trackedRun maxSize ops).st.entries = none →
      (trackedRun maxSize ops).st.entries = p :: rest →
      maxSize ≤ (trackedRun maxSize ops).st.entries.length →
      (lruPut (trackedRun maxSize ops).st k v).entries = rest ++ [(k, v)] ∧
      ∀ q ∈ (trackedRun maxSize ops).st.entries,
        (trackedRun maxSize ops).lastUse p.1 ≤ (trackedRun maxSize ops).lastUse q.1) := by
  have hbase : CacheInv (K := K) (V := V)
      { st := lruInit K V maxSize, time := 0, lastUse := fun _ => 0 } :=
    ⟨List.Pairwise.nil, by intro p hp; simp [lruInit] at hp⟩
  have H := trackedFold_preserves ops
    { st := lruInit K V maxSize, time := 0, lastUse := fun _ => 0 }
    hbase (by simp [lruInit]) (by simpa [lruInit] using hpos)
  have hmax : (trackedRun maxSize ops).st.maxSize = maxSize := H.2.2
  have hlenb : (trackedRun maxSize ops).st.entries.length ≤
      (trackedRun maxSize ops).st.maxSize := H.2.1
  have hpw : (trackedRun maxSize ops).st.entries.Pairwise
      (fun p q => (trackedRun maxSize ops).lastUse p.1 <
        (trackedRun maxSize ops).lastUse q.1) := H.1.1
  constructor
  · rw [hmax] at hlenb
    exact hlenb
  · intro k v p rest hlk hcons hfull
    constructor
    · have hge : (trackedRun maxSize ops).st.entries.length ≥
          (trackedRun maxSize ops).st.maxSize := by
        rw [hmax]
        exact hfull
      simp only [lruPut, hlk]
      rw [if_pos hge]
      simp [hcons]
    · rw [hcons, List.pairwise_cons] at hpw
      intro q hq
      rw [hcons] at hq
      rcases List.mem_cons.mp hq with h | h
      · subst h; exact Nat.le_refl _
      · exact Nat.le_of_lt (hpw.1 q h)

/-- Witness for C7: capacity 1, two puts; the size bound holds and a
third put with a fresh key evicts the resident front entry. -/
theorem lru_bounded_and_evicts_lru_witness :
    (trackedRun (K := Nat) (V := Nat) 1 [.put 0 5, .put 1 6]).st.entries.length ≤ 1 ∧
    (lruPut (trackedRun (K := Nat) (V := Nat) 1 [.put 0 5, .put 1 6]).st 2 7).entries =
      [] ++ [(2, 7)] := by
  have h := lru_bounded_and_evicts_lru (K := Nat) (V := Nat) 1 (by decide)
    [.put 0 5, .put 1 6]
  exact ⟨h.1, (h.2 2 7 (1, 6) [] (by decide) (by decide) (by decide)).1⟩

end FileOpener
